import Mathlib

/-!
Verification development for the RNAsketch repository.

Shallow embedding of:
* `src/RNAsketch/Design.py` — the `Design` sequence setter and derived-value model;
* `src/designs/pseudoknot-multistable.py` and
  `src/benchmarks/optimization_duration_multithread.py` — `calculate_objective`;
* `src/designs/constrained_generation_eval.py` —
  `constraint_generation_optimization_eval`, the constrained-generation
  optimizer with its negative-constraint ledger.

Energies are modelled as rationals; the external collaborators (the RNAdesign
dependency-graph sampler and the ViennaRNA / Nupack energy oracles, which are
third-party libraries not part of this repository) are abstract function
parameters, following the interface contract stated in the spec.
-/

/-! ## Design.py: alphabet and the sequence setter -/

/-- The character class of the regex `[AUGC\+\&]` in `Design.sequence` (Design.py line 90). -/
def rnaAlphabet : List Char := ['A', 'U', 'G', 'C', '+', '&']

/-- `re.match(re.compile("[AUGC\+\&]"), s)`: `re.match` anchors at the start of the
string only, and the pattern is a single character class, so it succeeds exactly
when `s` is non-empty and its first character is in the class. -/
def reMatchSeq (s : String) : Bool :=
  match s.data with
  | [] => false
  | c :: _ => decide (c ∈ rnaAlphabet)

/-- Modelled from the spec: a `State`'s derived-on-demand fold results
(mfe/pf/eos/probability/defect), kept as an abstract cache because `State.py`
is not among the sources; `reset` clears the cache. `struct` is the state's
immutable target structure. -/
structure DState where
  struct : String
  cache : Option ℚ
deriving DecidableEq

/-- Modelled from the spec: `State.reset()` clears the cached derived fold results. -/
def DState.reset (st : DState) : DState := { st with cache := none }

/-- The mutable part of a `Design` object relevant to the sequence setter:
the `_sequence` attribute (`none` = unset) and the states. -/
structure DesignSt where
  _sequence : Option String
  states : List DState
deriving DecidableEq

/-- `Design.sequence` setter (Design.py lines 88-97):
if `s` is a string and `re.match("[AUGC\+\&]", s)` succeeds, store `s` and call
`state.reset()` on every state; else if `s == ''`, set `_sequence = None`
(without resetting any state); else raise `TypeError`. -/
def designSetSequence (d : DesignSt) (s : String) : Except String DesignSt :=
  if reMatchSeq s then
    .ok { d with _sequence := some s, states := d.states.map DState.reset }
  else if s = "" then
    .ok { d with _sequence := none }
  else
    .error "Sequence must be a string containing a IUPAC RNA sequence"

/-- `Design.structures` (Design.py lines 71-80): the structures of all states with
duplicates removed, first occurrence kept. -/
def designStructures (raw : List String) : List String :=
  raw.foldl (fun acc s => if s ∈ acc then acc else acc ++ [s]) []

/-! ## calculate_objective (two variants) -/

/-- The nested loop
`for i, value in enumerate(eos): for j in eos[i+1:]: part += pen(value, j)`
shared by both `calculate_objective` variants. -/
def objective_difference_part (pen : ℚ → ℚ → ℚ) : List ℚ → ℚ
  | [] => 0
  | v :: rest => (rest.map (pen v)).sum + objective_difference_part pen rest

/-- `calculate_objective` from `src/benchmarks/optimization_duration_multithread.py`
(lines 129-141): squared pairwise differences. `energy` stands for
`RNA.energy_of_struct`, `pf` for `RNA.pf_fold(sequence)[1]`. -/
def calculate_objective_sqdiff (energy : String → String → ℚ) (pf : String → ℚ)
    (sequence : String) (structures : List String) : ℚ :=
  (structures.map (energy sequence)).sum - (structures.length : ℚ) * pf sequence
    + 1 * objective_difference_part (fun v j => (v - j) ^ 2) (structures.map (energy sequence))

/-- `calculate_objective` from `src/designs/pseudoknot-multistable.py`
(lines 271-283): absolute pairwise differences (`math.fabs`). -/
def calculate_objective_absdiff (energy : String → String → ℚ) (pf : String → ℚ)
    (sequence : String) (structures : List String) : ℚ :=
  (structures.map (energy sequence)).sum - (structures.length : ℚ) * pf sequence
    + 1 * objective_difference_part (fun v j => |v - j|) (structures.map (energy sequence))

/-- Closed-form pairwise sum used to state C5: the sum of `pen l[i] l[j]`
over all index pairs `i < j`. -/
def pairwiseSum (pen : ℚ → ℚ → ℚ) (l : List ℚ) : ℚ :=
  Finset.sum (Finset.range l.length) fun i =>
    Finset.sum (Finset.range l.length) fun j =>
      if i < j then pen (l.getD i 0) (l.getD j 0) else 0

/-! ## The constrained-generation optimizer

`constraint_generation_optimization_eval` in
`src/designs/constrained_generation_eval.py` (lines 151-301). -/

/-- The external collaborators of one optimizer run, as the spec's interface
contract. `stream n` is the sequence produced by the `n`-th call to
`PyDesign._sample_sequence` (the mutation is random; any fixed draw sequence is a
run of the algorithm); reverting restores the pre-mutation sequence, per the
Sampler contract that `revert` exactly undoes the most recent `mutate`.
`energy` is the run's energy-of-structure oracle (`RNA.energy_of_struct` for a
ViennaRNA design, `nupack.energy` for a Nupack design); `mfe` maps a sequence to
its MFE structure; `compatible` is `rd.sequence_structure_compatible`;
`initSample` is the sequence produced by the initial `dg.sample()`. -/
structure Env where
  stream : ℕ → String
  initSample : String
  compatible : String → String → Bool
  energy : String → String → ℚ
  mfe : String → String

/-- Parameters of one optimizer run. `targets` is `design.structures` (the
distinct target structures), `classtype` is `design.classtype`, `objs` the
objective functions (each a function of the design's current sequence),
`exitAfter` the `exit` parameter, `cap` the `num_neg_constraints` parameter. -/
structure Params where
  env : Env
  targets : List String
  classtype : String
  objs : List (String → ℚ)
  exitAfter : ℕ
  maxEosDiff : ℚ
  cap : ℕ

/-- The local state of `constraint_generation_optimization_eval`. The sequence
`seq` is shared between the sampler and the design (the code keeps them in
sync); `neg_constraints` is the ledger, oldest entry first, newest last;
`history_size` records the last `dg.set_history_size` argument (`none` if the
call was never made). -/
structure OptState where
  seq : String
  scores : List ℚ
  count : ℕ
  number_of_samples : ℕ
  number_samples : ℕ
  number_mfes : ℕ
  number_objectives : ℕ
  number_eos : ℕ
  sample_steps : ℕ
  cg_count : ℕ
  neg_constraints : List String
  history_size : Option ℕ

/-- The message of the `ValueError` raised at line 233. -/
def valueErrorMsg : String := "Could not figure out the classtype of the Design object."

/-- The classtype dispatch of lines 228-233: `design.classtype == 'vrnaDesign'`
selects `RNA.energy_of_struct`, `== 'nupackDesign'` selects `nupack.energy`
(both are the run's energy oracle `env.energy`); any other classtype raises. -/
def classtypeEnergy (classtype : String) (env : Env) : Option (String → String → ℚ) :=
  if classtype = "vrnaDesign" then some env.energy
  else if classtype = "nupackDesign" then some env.energy
  else none

/-- `vrnaDesign.classtype` (Design.py lines 253-256). -/
def vrnaDesign_classtype : String := "vrna"

/-- `nupackDesign.classtype` (Design.py lines 261-264). -/
def nupackDesign_classtype : String := "nupack"

/-- `collections.deque(maxlen=cap).append(x)`: append, evicting from the left
once the capacity is exceeded. -/
def dequeAppend (cap : ℕ) (q : List String) (x : String) : List String :=
  if cap < (q ++ [x]).length then (q ++ [x]).drop ((q ++ [x]).length - cap) else q ++ [x]

/-- The ledger walk of lines 223-247, over `reversed(neg_constraints)`.
For each negative structure compatible with the current sequence, count one
eos evaluation, dispatch on the classtype to get the negative structure's
energy; if `neg_eos - design.eos[k] < max_eos_diff` for some target `k`,
set `perfect = False`, revert the sampler and restore the design's sequence
(to `prev`), and break. Returns the updated state and the `perfect` flag. -/
def ledgerWalk (p : Params) (prev : String) :
    List String → OptState → Except String (OptState × Bool)
  | [], st => .ok (st, true)
  | negc :: rest, st =>
    if p.env.compatible st.seq negc then
      match classtypeEnergy p.classtype p.env with
      | none => .error valueErrorMsg
      | some en =>
        if p.targets.any fun t => decide (en st.seq negc - p.env.energy st.seq t < p.maxEosDiff) then
          .ok ({ st with number_eos := st.number_eos + 1, seq := prev }, false)
        else
          ledgerWalk p prev rest { st with number_eos := st.number_eos + 1 }
    else
      ledgerWalk p prev rest st

/-- The stall-handling block of lines 204-207: once `cg_count > 10000`, reset
`cg_count` to 0, increment `sample_steps`, and call
`dg.set_history_size(sample_steps + 100)` with the incremented value. -/
def cgStallStep (st : OptState) : OptState :=
  if 10000 < st.cg_count then
    { st with cg_count := 0, sample_steps := st.sample_steps + 1,
              history_size := some (st.sample_steps + 1 + 100) }
  else st

/-- Lines 203-209: the stall-handling block followed by the unconditional
`cg_count += 1` performed on every inner-loop iteration. -/
def cgCountTick (st : OptState) : OptState :=
  let st1 := cgStallStep st
  { st1 with cg_count := st1.cg_count + 1 }

/-- Lines 200-202: `number_of_samples += 1; number_samples += 1`. -/
def sampledCount (st0 : OptState) : OptState :=
  { st0 with number_of_samples := st0.number_of_samples + 1,
             number_samples := st0.number_samples + 1 }

/-- The state after lines 200-221 of one inner-loop iteration: both sample
counters bumped, stall handling applied, the sequence replaced by the freshly
sampled candidate, and `design.number_of_structures` added to `number_eos`. -/
def mutatedState (p : Params) (st0 : OptState) : OptState :=
  { cgCountTick (sampledCount st0) with
      seq := p.env.stream st0.number_samples,
      number_eos := (cgCountTick (sampledCount st0)).number_eos + p.targets.length }

/-- One iteration of the inner constraint-generation loop (lines 199-247):
count the sample in both counters, run the stall handling, sample a new
sequence, add `design.number_of_structures` to `number_eos`, and walk the
ledger newest-first. Returns the state, the pre-mutation sequence (held by the
sampler's undo history for this iteration, restored on revert), and the
`perfect` flag. -/
def innerBody (p : Params) (st0 : OptState) : Except String (OptState × String × Bool) :=
  (ledgerWalk p st0.seq (mutatedState p st0).neg_constraints.reverse
      (mutatedState p st0)).map fun r => (r.1, st0.seq, r.2)

/-- The inner `while True` loop of lines 199-250: repeat `innerBody` until the
candidate is `perfect`. `none` means the fuel bound was reached before the loop
exited (fuel is a modelling artifact only: the source loop is unbounded). -/
def innerLoop (p : Params) : ℕ → OptState → Option (Except String (OptState × String))
  | 0, _ => none
  | fuel + 1, st =>
    match innerBody p st with
    | .error e => some (.error e)
    | .ok (st', prev, perfect) =>
      if perfect then some (.ok (st', prev)) else innerLoop p fuel st'

/-- The `better` evaluation loop of lines 266-272, on the list of pairs
`(scores[i], this_scores[i])`: break with `better = False` at the first index
where `this_scores[i] > scores[i]`, set `better = True` at each index where
`this_scores[i] < scores[i]`. -/
def betterLoop : Bool → List (ℚ × ℚ) → Bool
  | b, [] => b
  | b, (s, t) :: rest =>
    if s < t then false
    else if t < s then betterLoop true rest
    else betterLoop b rest

/-- Lines 266-272: component-wise comparison of `this_scores` against `scores`,
starting from `better = False`. -/
def betterCalc (scores thisScores : List ℚ) : Bool :=
  betterLoop false (scores.zip thisScores)

/-- The outer-loop body after the inner loop has produced a perfect candidate
(lines 252-290): bump `count` and `number_mfes`; if the candidate's MFE
structure is one of the target structures, evaluate the objectives and either
accept (install `this_scores`, reset `sample_steps`, `cg_count` and `count`) or
revert; otherwise add the MFE structure to the ledger unless it is already
there, and revert. `prev` is the sequence restored by
`dg.revert_sequence(sample_count)`. -/
def outerAfterInner (p : Params) (st0 : OptState) (prev : String) : OptState :=
  if p.env.mfe st0.seq ∈ p.targets then
    if betterCalc st0.scores (p.objs.map fun f => f st0.seq) then
      { st0 with count := 0, number_mfes := st0.number_mfes + 1,
                 number_objectives := st0.number_objectives + p.objs.length,
                 scores := p.objs.map fun f => f st0.seq,
                 sample_steps := 1, cg_count := 0 }
    else
      { st0 with count := st0.count + 1, number_mfes := st0.number_mfes + 1,
                 number_objectives := st0.number_objectives + p.objs.length,
                 seq := prev }
  else
    if p.env.mfe st0.seq ∈ st0.neg_constraints then
      { st0 with count := st0.count + 1, number_mfes := st0.number_mfes + 1, seq := prev }
    else
      { st0 with count := st0.count + 1, number_mfes := st0.number_mfes + 1, seq := prev,
                 neg_constraints := dequeAppend p.cap st0.neg_constraints (p.env.mfe st0.seq) }

/-- The tuple returned at line 301:
`scores, number_of_samples, number_mfes, number_objectives, number_eos, number_samples`. -/
structure RunResult where
  scores : List ℚ
  number_of_samples : ℕ
  number_mfes : ℕ
  number_objectives : ℕ
  number_eos : ℕ
  number_samples : ℕ

/-- Project the returned tuple out of the final state. -/
def mkResult (st : OptState) : RunResult :=
  ⟨st.scores, st.number_of_samples, st.number_mfes, st.number_objectives,
   st.number_eos, st.number_samples⟩

/-- The outer `while True` loop of lines 197-294: run the inner loop, process
the candidate, and exit once `count > exit`. -/
def outerLoop (p : Params) (ifuel : ℕ) : ℕ → OptState → Option (Except String RunResult)
  | 0, _ => none
  | ofuel + 1, st =>
    match innerLoop p ifuel st with
    | none => none
    | some (.error e) => some (.error e)
    | some (.ok (st1, prev)) =>
      let st2 := outerAfterInner p st1 prev
      if p.exitAfter < st2.count then some (.ok (mkResult st2))
      else outerLoop p ifuel ofuel st2

/-- Lines 166-195: the initial state. If the design has no sequence, sample one
(`env.initSample`); score it with every objective function (counting the
objective evaluations); all counters start at zero, `sample_steps` at 1, the
ledger empty. -/
def initState (p : Params) (designSeq : Option String) : OptState :=
  let seq0 := match designSeq with
    | none => p.env.initSample
    | some s => s
  { seq := seq0
    scores := p.objs.map fun f => f seq0
    count := 0
    number_of_samples := 0
    number_samples := 0
    number_mfes := 0
    number_objectives := p.objs.length
    number_eos := 0
    sample_steps := 1
    cg_count := 0
    neg_constraints := []
    history_size := none }

/-- `constraint_generation_optimization_eval` (lines 151-301), fuelled:
`designSeq` is the design's sequence on entry (`none` if unset). -/
def constraint_generation_optimization_eval (p : Params) (designSeq : Option String)
    (ifuel ofuel : ℕ) : Option (Except String RunResult) :=
  outerLoop p ifuel ofuel (initState p designSeq)

/-- The ledger invariant of C3: size bounded by the capacity, no duplicates,
no target structure stored. -/
def LedgerInv (p : Params) (l : List String) : Prop :=
  l.length ≤ p.cap ∧ l.Nodup ∧ ∀ s ∈ l, s ∉ p.targets

/-- Component-wise comparison of score lists: same length and every component of
`a` is at most the corresponding component of `b`. -/
def ScoresLE (a b : List ℚ) : Prop :=
  a.length = b.length ∧ ∀ i, i < a.length → a.getD i 0 ≤ b.getD i 0

/-! ## Concrete instances used by witnesses and counterexamples -/

/-- A trivial environment: constant proposals, everything compatible, zero
energies, constant MFE structure. -/
def envTriv : Env :=
  { stream := fun _ => "AUGC"
    initSample := "AUGC"
    compatible := fun _ _ => true
    energy := fun _ _ => 0
    mfe := fun _ => "...." }

/-- A run configuration whose single target is the constant MFE structure. -/
def pTriv : Params :=
  { env := envTriv
    targets := ["...."]
    classtype := "vrnaDesign"
    objs := [fun _ => 0]
    exitAfter := 0
    maxEosDiff := 0
    cap := 1 }

/-- An environment where the stored negative structure `negS` has lower energy
than any target, so the ledger check rejects. -/
def envRej : Env :=
  { stream := fun _ => "AUGC"
    initSample := "AUGC"
    compatible := fun _ _ => true
    energy := fun _ s => if s = "negS" then -1 else 0
    mfe := fun _ => "...." }

/-- A run configuration for the rejecting environment. -/
def pRej : Params :=
  { env := envRej
    targets := ["t0"]
    classtype := "vrnaDesign"
    objs := [fun _ => 0]
    exitAfter := 0
    maxEosDiff := 0
    cap := 2 }

/-- The rejecting configuration, but with the classtype that
`vrnaDesign.classtype` actually returns. -/
def pBug : Params := { pRej with classtype := vrnaDesign_classtype }

/-- A mid-run optimizer state holding one negative constraint. -/
def stRej : OptState :=
  { seq := "AAAA"
    scores := [0]
    count := 0
    number_of_samples := 0
    number_samples := 0
    number_mfes := 0
    number_objectives := 1
    number_eos := 0
    sample_steps := 1
    cg_count := 0
    neg_constraints := ["negS"]
    history_size := none }

/-- A state whose failure counter just crossed the stall threshold. -/
def stTick : OptState := { stRej with cg_count := 10001 }

/-- A design with no states and no sequence. -/
def dEmpty : DesignSt := ⟨none, []⟩

/-- A design with one state carrying a cached derived fold value. -/
def dCached : DesignSt := ⟨some "A", [⟨"....", some 5⟩]⟩

/-- Concrete energy oracle for the objective-function witness. -/
def energyW : String → String → ℚ := fun _ s => if s = "sA" then 2 else 3

/-- Concrete partition-function oracle for the objective-function witness. -/
def pfW : String → ℚ := fun _ => 1

/-- The state produced by one rejecting inner-loop iteration from `stRej`. -/
def stRejDone : OptState :=
  { seq := "AAAA"
    scores := [0]
    count := 0
    number_of_samples := 1
    number_samples := 1
    number_mfes := 0
    number_objectives := 1
    number_eos := 2
    sample_steps := 1
    cg_count := 1
    neg_constraints := ["negS"]
    history_size := none }

/-- The result of the two-iteration run of the optimizer under `pTriv`. -/
def resTriv : RunResult := ⟨[0], 1, 1, 2, 1, 1⟩

/-! ## Lemmas about the better-score comparison (lines 266-272) -/

lemma betterLoop_true_iff (l : List (ℚ × ℚ)) :
    ∀ b, betterLoop b l = true ↔
      (∀ pr ∈ l, pr.2 ≤ pr.1) ∧ (b = true ∨ ∃ pr ∈ l, pr.2 < pr.1) := by
  induction l with
  | nil => intro b; simp [betterLoop]
  | cons hd tl ih =>
    intro b
    obtain ⟨s, t⟩ := hd
    by_cases h1 : s < t
    · simp only [betterLoop, if_pos h1]
      constructor
      · intro h; exact absurd h (by simp)
      · rintro ⟨hall, -⟩
        exact absurd (hall (s, t) (List.mem_cons_self _ _)) (by simp [not_le.mpr h1])
    · by_cases h2 : t < s
      · simp only [betterLoop, if_neg h1, if_pos h2, ih true]
        constructor
        · rintro ⟨hall, -⟩
          exact ⟨by simpa [h2.le] using hall, Or.inr ⟨(s, t), List.mem_cons_self _ _, h2⟩⟩
        · rintro ⟨hall, -⟩
          exact ⟨fun pr hpr => hall pr (List.mem_cons_of_mem _ hpr), by left; trivial⟩
      · have hts : t = s := le_antisymm (not_lt.mp h1) (not_lt.mp h2)
        subst hts
        simp only [betterLoop, if_neg h1, if_neg h2, ih b]
        constructor
        · rintro ⟨hall, hb⟩
          refine ⟨by simpa using hall, ?_⟩
          rcases hb with hb | ⟨pr, hpr, hlt⟩
          · exact Or.inl hb
          · exact Or.inr ⟨pr, List.mem_cons_of_mem _ hpr, hlt⟩
        · rintro ⟨hall, hb⟩
          refine ⟨fun pr hpr => hall pr (List.mem_cons_of_mem _ hpr), ?_⟩
          rcases hb with hb | ⟨pr, hpr, hlt⟩
          · exact Or.inl hb
          · rcases List.mem_cons.mp hpr with rfl | hpr'
            · exact absurd hlt (lt_irrefl _)
            · exact Or.inr ⟨pr, hpr', hlt⟩

lemma betterCalc_true_iff (s t : List ℚ) :
    betterCalc s t = true ↔
      (∀ pr ∈ s.zip t, pr.2 ≤ pr.1) ∧ ∃ pr ∈ s.zip t, pr.2 < pr.1 := by
  unfold betterCalc
  rw [betterLoop_true_iff]
  simp

lemma mem_zip_getD (s : List ℚ) :
    ∀ (t : List ℚ), s.length = t.length →
      ∀ pr : ℚ × ℚ, pr ∈ s.zip t ↔
        ∃ i, i < s.length ∧ s.getD i 0 = pr.1 ∧ t.getD i 0 = pr.2 := by
  induction s with
  | nil => intro t h pr; simp
  | cons a s ih =>
    intro t h pr
    cases t with
    | nil => simp at h
    | cons b t =>
      simp only [List.zip_cons_cons, List.mem_cons]
      constructor
      · rintro (rfl | hm)
        · exact ⟨0, by simp⟩
        · obtain ⟨i, hi, e1, e2⟩ := (ih t (by simpa using h) pr).mp hm
          exact ⟨i + 1, by simpa using hi, by simpa using e1, by simpa using e2⟩
      · rintro ⟨i, hi, e1, e2⟩
        cases i with
        | zero =>
          left
          obtain ⟨pa, pb⟩ := pr
          simp only [List.getD_cons_zero] at e1 e2
          simp [e1, e2]
        | succ i =>
          right
          refine (ih t (by simpa using h) pr).mpr ⟨i, by simpa using hi, ?_, ?_⟩
          · simpa using e1
          · simpa using e2

lemma betterCalc_true_iff_getD (s t : List ℚ) (hlen : s.length = t.length) :
    betterCalc s t = true ↔
      (∀ i, i < s.length → t.getD i 0 ≤ s.getD i 0) ∧
        ∃ i, i < s.length ∧ t.getD i 0 < s.getD i 0 := by
  rw [betterCalc_true_iff]
  constructor
  · rintro ⟨h1, pr, hm, hlt⟩
    obtain ⟨i, hi, e1, e2⟩ := (mem_zip_getD s t hlen pr).mp hm
    exact ⟨fun j hj => h1 (s.getD j 0, t.getD j 0) ((mem_zip_getD s t hlen _).mpr ⟨j, hj, rfl, rfl⟩),
      ⟨i, hi, by rw [e1, e2]; exact hlt⟩⟩
  · rintro ⟨h1, i, hi, hlt⟩
    refine ⟨?_, ⟨(s.getD i 0, t.getD i 0), (mem_zip_getD s t hlen _).mpr ⟨i, hi, rfl, rfl⟩, hlt⟩⟩
    intro pr hm
    obtain ⟨j, hj, e1, e2⟩ := (mem_zip_getD s t hlen pr).mp hm
    rw [← e1, ← e2]
    exact h1 j hj

lemma betterCalc_self (s : List ℚ) : betterCalc s s = false := by
  rcases h : betterCalc s s with _ | _
  · rfl
  · obtain ⟨-, i, -, hlt⟩ := (betterCalc_true_iff_getD s s rfl).mp h
    exact absurd hlt (lt_irrefl _)

lemma betterCalc_singleton (a b : ℚ) : betterCalc [a] [b] = true ↔ b < a := by
  rw [betterCalc_true_iff_getD [a] [b] rfl]
  constructor
  · rintro ⟨-, i, hi, hlt⟩
    simp only [List.length_singleton, Nat.lt_one_iff] at hi
    subst hi
    simpa using hlt
  · intro h
    refine ⟨fun i hi => ?_, ⟨0, by simp, by simpa using h⟩⟩
    simp only [List.length_singleton, Nat.lt_one_iff] at hi
    subst hi
    simpa using h.le

lemma betterCalc_scoresLE (s t : List ℚ) (hlen : s.length = t.length)
    (h : betterCalc s t = true) : ScoresLE t s := by
  obtain ⟨h1, -⟩ := (betterCalc_true_iff_getD s t hlen).mp h
  exact ⟨hlen.symm, fun i hi => h1 i (by rw [← hlen] at hi; simpa using hi)⟩

lemma scoresLE_refl (a : List ℚ) : ScoresLE a a := ⟨rfl, fun _ _ => le_refl _⟩

lemma scoresLE_trans {a b c : List ℚ} (h1 : ScoresLE a b) (h2 : ScoresLE b c) :
    ScoresLE a c := by
  obtain ⟨l1, g1⟩ := h1
  obtain ⟨l2, g2⟩ := h2
  exact ⟨l1.trans l2, fun i hi => (g1 i hi).trans (g2 i (l1 ▸ hi))⟩

/-! ## Lemmas about the pairwise objective penalty -/

lemma sum_range_getD_map (f : ℚ → ℚ) (xs : List ℚ) :
    (Finset.sum (Finset.range xs.length) fun j => f (xs.getD j 0)) = (xs.map f).sum := by
  induction xs with
  | nil => simp
  | cons x xs ih =>
    rw [List.length_cons, Finset.sum_range_succ']
    simp only [List.getD_cons_succ, List.getD_cons_zero, List.map_cons, List.sum_cons]
    rw [ih]
    ring

lemma objective_difference_part_eq_pairwiseSum (pen : ℚ → ℚ → ℚ) (l : List ℚ) :
    objective_difference_part pen l = pairwiseSum pen l := by
  induction l with
  | nil => simp [objective_difference_part, pairwiseSum]
  | cons x xs ih =>
    rw [objective_difference_part, ih]
    unfold pairwiseSum
    rw [List.length_cons, Finset.sum_range_succ']
    have hinner0 :
        (Finset.sum (Finset.range (xs.length + 1)) fun j =>
          if 0 < j then pen ((x :: xs).getD 0 0) ((x :: xs).getD j 0) else 0)
        = (xs.map (pen x)).sum := by
      rw [Finset.sum_range_succ']
      simp only [List.getD_cons_succ, List.getD_cons_zero, Nat.zero_lt_succ, if_pos,
        lt_irrefl, if_neg, add_zero, not_lt_zero']
      rw [sum_range_getD_map]
      simp
    have hinnerS : ∀ i : ℕ,
        (Finset.sum (Finset.range (xs.length + 1)) fun j =>
          if i + 1 < j then pen ((x :: xs).getD (i + 1) 0) ((x :: xs).getD j 0) else 0)
        = (Finset.sum (Finset.range xs.length) fun j =>
          if i < j then pen (xs.getD i 0) (xs.getD j 0) else 0) := by
      intro i
      rw [Finset.sum_range_succ']
      simp only [List.getD_cons_succ, List.getD_cons_zero, Nat.add_lt_add_iff_right,
        Nat.not_lt_zero, if_neg, add_zero, not_false_iff]
    simp only [hinnerS]
    rw [hinner0]
    ring

/-! ## Lemmas about the bounded deque -/

lemma dequeAppend_length_le (cap : ℕ) (q : List String) (x : String)
    (h : q.length ≤ cap) : (dequeAppend cap q x).length ≤ cap := by
  unfold dequeAppend
  by_cases hc : cap < (q ++ [x]).length
  · rw [if_pos hc]
    rw [List.length_drop]
    omega
  · rw [if_neg hc]
    omega

lemma dequeAppend_nodup (cap : ℕ) (q : List String) (x : String)
    (h : q.Nodup) (hx : x ∉ q) : (dequeAppend cap q x).Nodup := by
  have h2 : (q ++ [x]).Nodup := by
    rw [List.nodup_append]
    refine ⟨h, List.nodup_singleton x, ?_⟩
    intro a ha hax
    rw [List.mem_singleton] at hax
    exact hx (hax ▸ ha)
  unfold dequeAppend
  split
  · exact h2.sublist (List.drop_sublist _ _)
  · exact h2

lemma dequeAppend_mem (cap : ℕ) (q : List String) (x : String) :
    ∀ a ∈ dequeAppend cap q x, a ∈ q ∨ a = x := by
  intro a ha
  unfold dequeAppend at ha
  split at ha
  · have := List.mem_of_mem_drop ha
    simpa using this
  · simpa using ha

lemma dequeAppend_evict (cap : ℕ) (q : List String) (x : String)
    (hlen : q.length = cap) (hpos : 0 < cap) :
    dequeAppend cap q x = q.tail ++ [x] := by
  unfold dequeAppend
  have hc : cap < (q ++ [x]).length := by
    rw [List.length_append, List.length_singleton, hlen]
    omega
  rw [if_pos hc]
  have h1 : (q ++ [x]).length - cap = 1 := by
    rw [List.length_append, List.length_singleton, hlen]
    omega
  rw [h1]
  cases q with
  | nil => rw [List.length_nil] at hlen; omega
  | cons a q => simp

/-! ## Lemmas about the stall-handling counter step -/

lemma cgCountTick_fields (st : OptState) :
    (cgCountTick st).seq = st.seq ∧
    (cgCountTick st).scores = st.scores ∧
    (cgCountTick st).neg_constraints = st.neg_constraints ∧
    (cgCountTick st).count = st.count ∧
    (cgCountTick st).number_of_samples = st.number_of_samples ∧
    (cgCountTick st).number_samples = st.number_samples ∧
    (cgCountTick st).number_mfes = st.number_mfes ∧
    (cgCountTick st).number_objectives = st.number_objectives ∧
    (cgCountTick st).number_eos = st.number_eos ∧
    (cgCountTick st).sample_steps
      = (if 10000 < st.cg_count then st.sample_steps + 1 else st.sample_steps) ∧
    (cgCountTick st).cg_count = (if 10000 < st.cg_count then 0 else st.cg_count) + 1 ∧
    (cgCountTick st).history_size
      = (if 10000 < st.cg_count then some (st.sample_steps + 1 + 100) else st.history_size) := by
  unfold cgCountTick cgStallStep
  by_cases h : 10000 < st.cg_count
  · simp [h]
  · simp [h]

/-! ## Lemmas about the ledger walk and the inner loop -/

lemma mutatedState_fields (p : Params) (st : OptState) :
    (mutatedState p st).seq = p.env.stream st.number_samples ∧
    (mutatedState p st).scores = st.scores ∧
    (mutatedState p st).neg_constraints = st.neg_constraints ∧
    (mutatedState p st).count = st.count ∧
    (mutatedState p st).number_of_samples = st.number_of_samples + 1 ∧
    (mutatedState p st).number_samples = st.number_samples + 1 ∧
    (mutatedState p st).sample_steps
      = (if 10000 < st.cg_count then st.sample_steps + 1 else st.sample_steps) ∧
    (mutatedState p st).cg_count = (if 10000 < st.cg_count then 0 else st.cg_count) + 1 ∧
    (mutatedState p st).history_size
      = (if 10000 < st.cg_count then some (st.sample_steps + 1 + 100) else st.history_size) := by
  by_cases h : 10000 < st.cg_count <;>
    simp [mutatedState, sampledCount, cgCountTick, cgStallStep, h]

lemma ledgerWalk_fields (p : Params) (prev : String) :
    ∀ (l : List String) (st st' : OptState) (b : Bool),
      ledgerWalk p prev l st = .ok (st', b) →
      st'.scores = st.scores ∧ st'.neg_constraints = st.neg_constraints ∧
      st'.count = st.count ∧ st'.number_of_samples = st.number_of_samples ∧
      st'.number_samples = st.number_samples ∧ st'.sample_steps = st.sample_steps ∧
      st'.cg_count = st.cg_count ∧ st'.history_size = st.history_size ∧
      st'.seq = (if b then st.seq else prev) := by
  intro l
  induction l with
  | nil =>
    intro st st' b h
    simp only [ledgerWalk, Except.ok.injEq, Prod.mk.injEq] at h
    obtain ⟨rfl, rfl⟩ := h
    simp
  | cons negc rest ih =>
    intro st st' b h
    simp only [ledgerWalk] at h
    split at h
    · split at h
      · simp at h
      · split at h
        · simp only [Except.ok.injEq, Prod.mk.injEq] at h
          obtain ⟨rfl, rfl⟩ := h
          simp
        · have := ih { st with number_eos := st.number_eos + 1 } st' b h
          simpa using this
    · exact ih st st' b h

lemma ledgerWalk_reject_iff (p : Params) (en : String → String → ℚ)
    (hen : classtypeEnergy p.classtype p.env = some en) (prev : String) :
    ∀ (l : List String) (st : OptState),
      ∃ st' b, ledgerWalk p prev l st = .ok (st', b) ∧
        (b = false ↔ ∃ negc ∈ l, p.env.compatible st.seq negc = true ∧
          ∃ t ∈ p.targets, en st.seq negc - p.env.energy st.seq t < p.maxEosDiff) := by
  intro l
  induction l with
  | nil =>
    intro st
    exact ⟨st, true, by simp [ledgerWalk], by simp⟩
  | cons negc rest ih =>
    intro st
    by_cases hc : p.env.compatible st.seq negc
    · by_cases hany :
          p.targets.any fun t => decide (en st.seq negc - p.env.energy st.seq t < p.maxEosDiff)
      · refine ⟨{ st with number_eos := st.number_eos + 1, seq := prev }, false, ?_, ?_⟩
        · simp [ledgerWalk, hc, hen, hany]
        · simp only [true_iff]
          refine ⟨negc, List.mem_cons_self _ _, hc, ?_⟩
          obtain ⟨t, ht, hlt⟩ := List.any_eq_true.mp hany
          exact ⟨t, ht, of_decide_eq_true hlt⟩
      · obtain ⟨st', b, hw, hiff⟩ := ih { st with number_eos := st.number_eos + 1 }
        refine ⟨st', b, ?_, ?_⟩
        · simp [ledgerWalk, hc, hen, hany, hw]
        · rw [hiff]
          constructor
          · rintro ⟨negc', hm, hcc, ht⟩
            exact ⟨negc', List.mem_cons_of_mem _ hm, hcc, ht⟩
          · rintro ⟨negc', hm, hcc, ht⟩
            rcases List.mem_cons.mp hm with rfl | hm'
            · exfalso
              obtain ⟨t, htm, hlt⟩ := ht
              exact hany (List.any_eq_true.mpr ⟨t, htm, decide_eq_true hlt⟩)
            · exact ⟨negc', hm', hcc, ht⟩
    · obtain ⟨st', b, hw, hiff⟩ := ih st
      refine ⟨st', b, by simp [ledgerWalk, hc, hw], ?_⟩
      rw [hiff]
      constructor
      · rintro ⟨negc', hm, hcc, ht⟩
        exact ⟨negc', List.mem_cons_of_mem _ hm, hcc, ht⟩
      · rintro ⟨negc', hm, hcc, ht⟩
        rcases List.mem_cons.mp hm with rfl | hm'
        · exact absurd hcc (by simpa using hc)
        · exact ⟨negc', hm', hcc, ht⟩

lemma innerBody_fields (p : Params) (st st' : OptState) (prev : String) (b : Bool)
    (h : innerBody p st = .ok (st', prev, b)) :
    prev = st.seq ∧
    st'.scores = st.scores ∧
    st'.neg_constraints = st.neg_constraints ∧
    st'.count = st.count ∧
    st'.number_of_samples = st.number_of_samples + 1 ∧
    st'.number_samples = st.number_samples + 1 ∧
    st'.sample_steps = (if 10000 < st.cg_count then st.sample_steps + 1 else st.sample_steps) ∧
    st'.cg_count = (if 10000 < st.cg_count then 0 else st.cg_count) + 1 ∧
    st'.history_size
      = (if 10000 < st.cg_count then some (st.sample_steps + 1 + 100) else st.history_size) ∧
    (b = true → st'.seq = p.env.stream st.number_samples) ∧
    (b = false → st'.seq = st.seq) := by
  unfold innerBody at h
  rcases hw : ledgerWalk p st.seq (mutatedState p st).neg_constraints.reverse (mutatedState p st)
    with e | ⟨st2, b2⟩ <;> rw [hw] at h
  · simp [Except.map] at h
  · simp only [Except.map, Except.ok.injEq, Prod.mk.injEq] at h
    obtain ⟨rfl, rfl, rfl⟩ := h
    obtain ⟨w1, w2, w3, w4, w5, w6, w7, w8, w9⟩ := ledgerWalk_fields p st.seq _ _ _ _ hw
    obtain ⟨m1, m2, m3, m4, m5, m6, m7, m8, m9⟩ := mutatedState_fields p st
    refine ⟨rfl, w1.trans m2, w2.trans m3, w3.trans m4, w4.trans m5, w5.trans m6,
      w6.trans m7, w7.trans m8, w8.trans m9, ?_, ?_⟩
    · intro hb
      rw [hb] at w9
      simpa [m1] using w9
    · intro hb
      rw [hb] at w9
      simpa using w9

lemma innerLoop_retry (p : Params) (st st' : OptState) (prev : String) (fuel : ℕ)
    (h : innerBody p st = .ok (st', prev, false)) :
    innerLoop p (fuel + 1) st = innerLoop p fuel st' := by
  rw [innerLoop, h]
  simp

lemma innerLoop_inv (p : Params) :
    ∀ (fuel : ℕ) (st st1 : OptState) (prev : String),
      innerLoop p fuel st = some (.ok (st1, prev)) →
      st1.scores = st.scores ∧
      st1.neg_constraints = st.neg_constraints ∧
      st1.count = st.count ∧
      (st.number_of_samples = st.number_samples →
        st1.number_of_samples = st1.number_samples) := by
  intro fuel
  induction fuel with
  | zero =>
    intro st st1 prev h
    simp [innerLoop] at h
  | succ n ih =>
    intro st st1 prev h
    rw [innerLoop] at h
    rcases hb : innerBody p st with e | ⟨st', prev', b⟩ <;> rw [hb] at h
    · simp at h
    · obtain ⟨-, f2, f3, f4, f5, f6, -, -, -, -, -⟩ := innerBody_fields p st st' prev' b hb
      rcases b with - | -
      · simp only [Bool.false_eq_true, if_neg, if_false] at h
        obtain ⟨g1, g2, g3, g4⟩ := ih st' st1 prev h
        exact ⟨g1.trans f2, g2.trans f3, g3.trans f4,
          fun he => g4 (by rw [f5, f6, he])⟩
      · simp only [if_pos, if_true, Option.some.injEq, Except.ok.injEq,
          Prod.mk.injEq] at h
        obtain ⟨rfl, rfl⟩ := h
        exact ⟨f2, f3, f4, fun he => by rw [f5, f6, he]⟩

/-! ## Lemmas about the outer-loop body -/

lemma outerAfterInner_counts (p : Params) (st : OptState) (prev : String) :
    (outerAfterInner p st prev).number_of_samples = st.number_of_samples ∧
    (outerAfterInner p st prev).number_samples = st.number_samples := by
  unfold outerAfterInner
  split
  · split <;> simp
  · split <;> simp

lemma outerAfterInner_scores (p : Params) (st : OptState) (prev : String) :
    (outerAfterInner p st prev).scores = st.scores ∨
      (betterCalc st.scores (p.objs.map fun f => f st.seq) = true ∧
        (outerAfterInner p st prev).scores = p.objs.map fun f => f st.seq) := by
  unfold outerAfterInner
  split
  · split
    · next hb => exact Or.inr ⟨hb, rfl⟩
    · exact Or.inl rfl
  · split <;> exact Or.inl rfl

lemma outerAfterInner_neg (p : Params) (st : OptState) (prev : String) :
    (outerAfterInner p st prev).neg_constraints = st.neg_constraints ∨
      (p.env.mfe st.seq ∉ p.targets ∧ p.env.mfe st.seq ∉ st.neg_constraints ∧
        (outerAfterInner p st prev).neg_constraints
          = dequeAppend p.cap st.neg_constraints (p.env.mfe st.seq)) := by
  unfold outerAfterInner
  split
  · split <;> exact Or.inl rfl
  · next hm =>
    split
    · exact Or.inl rfl
    · next hn => exact Or.inr ⟨hm, hn, rfl⟩

lemma outerAfterInner_accept (p : Params) (st : OptState) (prev : String)
    (hm : p.env.mfe st.seq ∈ p.targets)
    (hb : betterCalc st.scores (p.objs.map fun f => f st.seq) = true) :
    (outerAfterInner p st prev).scores = p.objs.map (fun f => f st.seq) ∧
    (outerAfterInner p st prev).count = 0 ∧
    (outerAfterInner p st prev).seq = st.seq ∧
    (outerAfterInner p st prev).sample_steps = 1 ∧
    (outerAfterInner p st prev).cg_count = 0 := by
  unfold outerAfterInner
  rw [if_pos hm, if_pos hb]
  simp

lemma outerAfterInner_noaccept (p : Params) (st : OptState) (prev : String)
    (hm : p.env.mfe st.seq ∈ p.targets)
    (hb : betterCalc st.scores (p.objs.map fun f => f st.seq) = false) :
    (outerAfterInner p st prev).scores = st.scores ∧
    (outerAfterInner p st prev).seq = prev ∧
    (outerAfterInner p st prev).count = st.count + 1 := by
  unfold outerAfterInner
  rw [if_pos hm, if_neg (by simp [hb])]
  simp

lemma outerAfterInner_nomatch (p : Params) (st : OptState) (prev : String)
    (hm : p.env.mfe st.seq ∉ p.targets) :
    (outerAfterInner p st prev).scores = st.scores ∧
    (outerAfterInner p st prev).seq = prev ∧
    (outerAfterInner p st prev).count = st.count + 1 := by
  unfold outerAfterInner
  rw [if_neg hm]
  split <;> simp

lemma outerLoop_step (p : Params) (ifuel n : ℕ) (st st1 : OptState) (prev : String)
    (hil : innerLoop p ifuel st = some (.ok (st1, prev))) :
    outerLoop p ifuel (n + 1) st =
      if p.exitAfter < (outerAfterInner p st1 prev).count
      then some (.ok (mkResult (outerAfterInner p st1 prev)))
      else outerLoop p ifuel n (outerAfterInner p st1 prev) := by
  rw [outerLoop, hil]

lemma outerLoop_none (p : Params) (ifuel n : ℕ) (st : OptState)
    (hil : innerLoop p ifuel st = none) :
    outerLoop p ifuel (n + 1) st = none := by
  rw [outerLoop, hil]

lemma outerLoop_err (p : Params) (ifuel n : ℕ) (st : OptState) (e : String)
    (hil : innerLoop p ifuel st = some (.error e)) :
    outerLoop p ifuel (n + 1) st = some (.error e) := by
  rw [outerLoop, hil]

lemma outerLoop_scores (p : Params) (ifuel : ℕ) (base : List ℚ) :
    ∀ (n : ℕ) (st : OptState) (res : RunResult),
      ScoresLE st.scores base →
      st.scores.length = p.objs.length →
      outerLoop p ifuel n st = some (.ok res) →
      ScoresLE res.scores base := by
  intro n
  induction n with
  | zero =>
    intro st res h1 h2 h
    simp [outerLoop] at h
  | succ m ih =>
    intro st res h1 h2 h
    rcases hil : innerLoop p ifuel st with - | er
    · rw [outerLoop_none p ifuel m st hil] at h
      simp at h
    · rcases er with e | ⟨st1, prev⟩
      · rw [outerLoop_err p ifuel m st e hil] at h
        simp at h
      · rw [outerLoop_step p ifuel m st st1 prev hil] at h
        obtain ⟨g1, -, -, -⟩ := innerLoop_inv p ifuel st st1 prev hil
        have hsc : ScoresLE (outerAfterInner p st1 prev).scores base ∧
            (outerAfterInner p st1 prev).scores.length = p.objs.length := by
          rcases outerAfterInner_scores p st1 prev with he | ⟨hb, he⟩
          · rw [he, g1]
            exact ⟨h1, h2⟩
          · rw [he]
            have hlen1 : st1.scores.length = (p.objs.map fun f => f st1.seq).length := by
              rw [g1, h2]
              simp
            have hle := betterCalc_scoresLE _ _ hlen1 hb
            have h1' : ScoresLE st1.scores base := by rw [g1]; exact h1
            exact ⟨scoresLE_trans hle h1', by simp⟩
        split at h
        · simp only [Option.some.injEq, Except.ok.injEq] at h
          rw [← h]
          exact hsc.1
        · exact ih _ res hsc.1 hsc.2 h

lemma outerLoop_samples (p : Params) (ifuel : ℕ) :
    ∀ (n : ℕ) (st : OptState) (res : RunResult),
      st.number_of_samples = st.number_samples →
      outerLoop p ifuel n st = some (.ok res) →
      res.number_of_samples = res.number_samples := by
  intro n
  induction n with
  | zero =>
    intro st res h1 h
    simp [outerLoop] at h
  | succ m ih =>
    intro st res h1 h
    rcases hil : innerLoop p ifuel st with - | er
    · rw [outerLoop_none p ifuel m st hil] at h
      simp at h
    · rcases er with e | ⟨st1, prev⟩
      · rw [outerLoop_err p ifuel m st e hil] at h
        simp at h
      · rw [outerLoop_step p ifuel m st st1 prev hil] at h
        obtain ⟨-, -, -, g4⟩ := innerLoop_inv p ifuel st st1 prev hil
        obtain ⟨c1, c2⟩ := outerAfterInner_counts p st1 prev
        have hstep : (outerAfterInner p st1 prev).number_of_samples
            = (outerAfterInner p st1 prev).number_samples := by
          rw [c1, c2]
          exact g4 h1
        split at h
        · simp only [Option.some.injEq, Except.ok.injEq] at h
          rw [← h]
          exact hstep
        · exact ih _ res hstep h

/-! ## Claim theorems -/

/-- Claim C1: in the inner constraint-generation loop the ledger is walked
newest-first (`reversed(neg_constraints)`, definitionally the walk over
`neg_constraints.reverse`), and the candidate is rejected exactly when some
stored negative structure is still compatible with the candidate sequence and
the candidate's energy-of-structure for that negative structure minus its
energy-of-structure for some positive target is below `max_eos_diff`; on
rejection the mutation is undone and the Design's sequence restored to the
pre-mutation sequence, and the inner loop retries. Stated for runs whose
classtype the dispatch of lines 228-233 recognizes. -/
theorem inner_loop_neg_constraint_rejection (p : Params) (st st1 : OptState)
    (prev : String) (perfect : Bool)
    (hct : p.classtype = "vrnaDesign" ∨ p.classtype = "nupackDesign")
    (h : innerBody p st = .ok (st1, prev, perfect)) :
    prev = st.seq ∧
    (perfect = false ↔ ∃ negc ∈ st.neg_constraints,
        p.env.compatible (p.env.stream st.number_samples) negc = true ∧
        ∃ t ∈ p.targets,
          p.env.energy (p.env.stream st.number_samples) negc
            - p.env.energy (p.env.stream st.number_samples) t < p.maxEosDiff) ∧
    (perfect = false → st1.seq = st.seq ∧ st1.neg_constraints = st.neg_constraints) ∧
    (perfect = true → st1.seq = p.env.stream st.number_samples) ∧
    (perfect = false → ∀ fuel, innerLoop p (fuel + 1) st = innerLoop p fuel st1) := by
  have hen : classtypeEnergy p.classtype p.env = some p.env.energy := by
    rcases hct with h' | h' <;> simp [classtypeEnergy, h']
  obtain ⟨f1, -, f3, -, -, -, -, -, -, f10, f11⟩ := innerBody_fields p st st1 prev perfect h
  obtain ⟨st', b, hw, hiff⟩ :=
    ledgerWalk_reject_iff p p.env.energy hen st.seq
      (mutatedState p st).neg_constraints.reverse (mutatedState p st)
  have hbody : innerBody p st = .ok (st', st.seq, b) := by
    unfold innerBody
    rw [hw]
    rfl
  rw [h] at hbody
  simp only [Except.ok.injEq, Prod.mk.injEq] at hbody
  obtain ⟨rfl, -, rfl⟩ := hbody
  obtain ⟨m1, -, m3, -, -, -, -, -, -⟩ := mutatedState_fields p st
  rw [m1, m3] at hiff
  simp only [List.mem_reverse] at hiff
  refine ⟨f1, hiff, fun hb => ⟨f11 hb, f3⟩, f10, fun hb fuel => ?_⟩
  rw [hb] at h
  exact innerLoop_retry p st st1 prev fuel h

/-- Claim C1, witness: a concrete rejecting iteration under `pRej` from the
state `stRej` holding the negative structure `negS`. -/
theorem inner_loop_neg_constraint_rejection_witness :
    "AAAA" = stRej.seq ∧
    (false = false ↔ ∃ negc ∈ stRej.neg_constraints,
        pRej.env.compatible (pRej.env.stream stRej.number_samples) negc = true ∧
        ∃ t ∈ pRej.targets,
          pRej.env.energy (pRej.env.stream stRej.number_samples) negc
            - pRej.env.energy (pRej.env.stream stRej.number_samples) t < pRej.maxEosDiff) ∧
    (false = false → stRejDone.seq = stRej.seq ∧
        stRejDone.neg_constraints = stRej.neg_constraints) ∧
    (false = true → stRejDone.seq = pRej.env.stream stRej.number_samples) ∧
    (false = false → ∀ fuel, innerLoop pRej (fuel + 1) stRej = innerLoop pRej fuel stRejDone) :=
  inner_loop_neg_constraint_rejection pRej stRej stRejDone "AAAA" false (Or.inl rfl)
    (by simp [innerBody, mutatedState, sampledCount, cgCountTick, cgStallStep, ledgerWalk,
      classtypeEnergy, pRej, envRej, stRej, stRejDone, Except.map])

/-- Claim C2: a candidate whose MFE structure matches a target is adopted as the
new best exactly when it is strictly better under the component-wise ordering
(no per-objective score greater, at least one strictly lower); for a single
objective this is plain less-than; equal scores are never an improvement and
lead to revert instead. -/
theorem better_score_strict_pareto (p : Params) (scores thisScores : List ℚ)
    (hlen : scores.length = thisScores.length) :
    (betterCalc scores thisScores = true ↔
      (∀ i, i < scores.length → thisScores.getD i 0 ≤ scores.getD i 0) ∧
      ∃ i, i < scores.length ∧ thisScores.getD i 0 < scores.getD i 0) ∧
    (∀ a b : ℚ, betterCalc [a] [b] = true ↔ b < a) ∧
    betterCalc scores scores = false ∧
    (∀ (st : OptState) (prev : String), p.env.mfe st.seq ∈ p.targets →
      (betterCalc st.scores (p.objs.map fun f => f st.seq) = true →
        (outerAfterInner p st prev).scores = p.objs.map (fun f => f st.seq) ∧
        (outerAfterInner p st prev).count = 0) ∧
      (betterCalc st.scores (p.objs.map fun f => f st.seq) = false →
        (outerAfterInner p st prev).scores = st.scores ∧
        (outerAfterInner p st prev).seq = prev)) := by
  refine ⟨betterCalc_true_iff_getD scores thisScores hlen, betterCalc_singleton,
    betterCalc_self scores, ?_⟩
  intro st prev hm
  constructor
  · intro hb
    obtain ⟨a1, a2, -, -, -⟩ := outerAfterInner_accept p st prev hm hb
    exact ⟨a1, a2⟩
  · intro hb
    obtain ⟨a1, a2, -⟩ := outerAfterInner_noaccept p st prev hm hb
    exact ⟨a1, a2⟩

/-- Claim C2, witness: `[3, 1]` strictly improves on `[3, 2]` component-wise. -/
theorem better_score_strict_pareto_witness :
    betterCalc [(3 : ℚ), 2] [(3 : ℚ), 1] = true :=
  ((better_score_strict_pareto pTriv [(3 : ℚ), 2] [(3 : ℚ), 1] rfl).1).mpr
    ⟨by decide, 1, by decide, by decide⟩

/-- Claim C3: the negative-constraint ledger starts empty, is unchanged by the
inner loop, keeps its invariant (size at most the capacity, no duplicates, no
target structure stored) across every outer-loop body, is left unchanged when
the candidate's MFE structure is already stored or is a target, and when full
the deque append evicts the oldest entry. -/
theorem neg_constraints_ledger_invariants (p : Params) (designSeq : Option String) :
    (initState p designSeq).neg_constraints = [] ∧
    (∀ fuel st st1 prev, innerLoop p fuel st = some (.ok (st1, prev)) →
      st1.neg_constraints = st.neg_constraints) ∧
    (∀ st prev, LedgerInv p st.neg_constraints →
      LedgerInv p (outerAfterInner p st prev).neg_constraints) ∧
    (∀ st prev, p.env.mfe st.seq ∈ st.neg_constraints →
      (outerAfterInner p st prev).neg_constraints = st.neg_constraints) ∧
    (∀ st prev, p.env.mfe st.seq ∈ p.targets →
      (outerAfterInner p st prev).neg_constraints = st.neg_constraints) ∧
    (∀ (q : List String) (x : String), q.length = p.cap → 0 < p.cap →
      dequeAppend p.cap q x = q.tail ++ [x]) := by
  refine ⟨?_, ?_, ?_, ?_, ?_, ?_⟩
  · cases designSeq <;> rfl
  · exact fun fuel st st1 prev h => (innerLoop_inv p fuel st st1 prev h).2.1
  · intro st prev hInv
    rcases outerAfterInner_neg p st prev with he | ⟨hm, hn, he⟩
    · rw [he]
      exact hInv
    · rw [he]
      refine ⟨dequeAppend_length_le _ _ _ hInv.1, dequeAppend_nodup _ _ _ hInv.2.1 hn, ?_⟩
      intro s hs
      rcases dequeAppend_mem _ _ _ s hs with h' | rfl
      · exact hInv.2.2 s h'
      · exact hm
  · intro st prev hmem
    rcases outerAfterInner_neg p st prev with he | ⟨-, hn, -⟩
    · exact he
    · exact absurd hmem hn
  · intro st prev hm
    rcases outerAfterInner_neg p st prev with he | ⟨hm', -, -⟩
    · exact he
    · exact absurd hm hm'
  · exact fun q x h1 h2 => dequeAppend_evict p.cap q x h1 h2

/-- Claim C3, witness: the invariant is preserved through a concrete outer-loop
body under `pRej`, and a full two-element deque evicts its oldest entry. -/
theorem neg_constraints_ledger_invariants_witness :
    LedgerInv pRej (outerAfterInner pRej stRej "AAAA").neg_constraints ∧
    dequeAppend pRej.cap ["s1", "s2"] "s3" = ["s1", "s2"].tail ++ ["s3"] :=
  ⟨(neg_constraints_ledger_invariants pRej none).2.2.1 stRej "AAAA"
      (by unfold LedgerInv; exact ⟨by decide, by decide, by decide⟩),
   (neg_constraints_ledger_invariants pRej none).2.2.2.2.2 ["s1", "s2"] "s3" (by decide) (by decide)⟩

/-- Claim C4 (code bug): `vrnaDesign.classtype` returns `'vrna'` and
`nupackDesign.classtype` returns `'nupack'` (Design.py lines 253-264), but the
optimizer compares the classtype against `'vrnaDesign'`/`'nupackDesign'`
(lines 228-233), so for a Design built from these classes the dispatch never
selects an energy backend and the `ValueError` branch is reached as soon as a
stored negative structure is compatible with the candidate sequence. -/
theorem classtype_dispatch_value_error :
    vrnaDesign_classtype = "vrna" ∧ nupackDesign_classtype = "nupack" ∧
    classtypeEnergy vrnaDesign_classtype envRej = none ∧
    classtypeEnergy nupackDesign_classtype envRej = none ∧
    innerBody pBug stRej = .error valueErrorMsg :=
  ⟨rfl, rfl, by rfl, by rfl, by rfl⟩

/-- Claim C5: both `calculate_objective` variants equal the sum of the
energies-of-structure, minus the structure count times the ensemble free
energy, plus the sum over all index pairs `i < j` of the pairwise penalty —
squared difference in the benchmark variant, absolute difference in the
pseudoknot-multistable variant. -/
theorem calculate_objective_closed_form (energy : String → String → ℚ)
    (pf : String → ℚ) (sequence : String) (structures : List String)
    (h : structures ≠ []) :
    calculate_objective_sqdiff energy pf sequence structures
      = (structures.map (energy sequence)).sum - structures.length * pf sequence
        + pairwiseSum (fun v j => (v - j) ^ 2) (structures.map (energy sequence)) ∧
    calculate_objective_absdiff energy pf sequence structures
      = (structures.map (energy sequence)).sum - structures.length * pf sequence
        + pairwiseSum (fun v j => |v - j|) (structures.map (energy sequence)) := by
  unfold calculate_objective_sqdiff calculate_objective_absdiff
  rw [objective_difference_part_eq_pairwiseSum, objective_difference_part_eq_pairwiseSum]
  constructor <;> ring

/-- Claim C5, witness: the closed form at a concrete two-structure input. -/
theorem calculate_objective_closed_form_witness :
    calculate_objective_sqdiff energyW pfW "AUGC" ["sA", "sB"]
      = ((["sA", "sB"] : List String).map (energyW "AUGC")).sum
        - (["sA", "sB"] : List String).length * pfW "AUGC"
        + pairwiseSum (fun v j => (v - j) ^ 2)
            ((["sA", "sB"] : List String).map (energyW "AUGC")) :=
  (calculate_objective_closed_form energyW pfW "AUGC" ["sA", "sB"] (by decide)).1

/-- Claim C6, counterexample: the string `"AZ"` is non-empty and contains `'Z'`,
a character outside the nucleotide alphabet, yet the sequence setter accepts it,
because `re.match` with the single character class `[AUGC\+\&]` only inspects
the first character of the string. -/
theorem sequence_setter_first_char_counterexample :
    ("AZ" : String) ≠ "" ∧ 'Z' ∈ ("AZ" : String).data ∧ 'Z' ∉ rnaAlphabet ∧
    designSetSequence dEmpty "AZ" = .ok { dEmpty with _sequence := some "AZ" } :=
  ⟨by decide, by decide, by decide, by rfl⟩

/-- Claim C6, amended: assigning a non-empty string whose FIRST character is
outside the alphabet raises an error (later characters are never inspected),
while assigning the empty string succeeds and leaves the sequence unset. -/
theorem sequence_setter_amended (d : DesignSt) (s : String) (h1 : s ≠ "")
    (h2 : ∀ c, s.data.head? = some c → c ∉ rnaAlphabet) :
    designSetSequence d s
      = .error "Sequence must be a string containing a IUPAC RNA sequence" ∧
    designSetSequence d "" = .ok { d with _sequence := none } := by
  constructor
  · have hm : reMatchSeq s = false := by
      unfold reMatchSeq
      obtain ⟨data⟩ := s
      cases data with
      | nil => exact absurd rfl h1
      | cons c cs =>
        simp only []
        exact decide_eq_false (h2 c rfl)
    unfold designSetSequence
    rw [hm]
    simp only [Bool.false_eq_true, if_false, if_neg h1]
  · rfl

/-- Claim C6, amended, witness: `"ZA"` starts with a non-alphabet character and
is rejected; the empty string is accepted as unset. -/
theorem sequence_setter_amended_witness :
    designSetSequence dEmpty "ZA"
      = .error "Sequence must be a string containing a IUPAC RNA sequence" ∧
    designSetSequence dEmpty "" = .ok { dEmpty with _sequence := none } :=
  sequence_setter_amended dEmpty "ZA" (by decide)
    (fun c hc => by
      have h0 : some 'Z' = some c := hc
      cases Option.some.inj h0
      decide)

/-- Claim C7, counterexample: assigning the empty "unset" sequence succeeds but
does NOT clear the states' derived fold caches — the state of `dCached` keeps
its cached value, so a state can retain derived values computed from the
previous sequence. -/
theorem empty_assignment_keeps_caches :
    designSetSequence dCached "" = .ok ⟨none, dCached.states⟩ ∧
    dCached.states ≠ dCached.states.map DState.reset :=
  ⟨by rfl, by decide⟩

/-- Claim C7, amended: every successful assignment of a non-empty
(alphabet-matching) sequence clears the derived fold results of all states;
assigning the empty string sets the sequence to unset but leaves the states
(and any cached derived values) untouched. -/
theorem sequence_setter_reset_amended (d : DesignSt) (s : String)
    (hs : reMatchSeq s = true) :
    (designSetSequence d s
        = .ok { d with _sequence := some s, states := d.states.map DState.reset } ∧
      ∀ st ∈ d.states.map DState.reset, st.cache = none) ∧
    designSetSequence d "" = .ok { d with _sequence := none } := by
  refine ⟨⟨?_, ?_⟩, rfl⟩
  · unfold designSetSequence
    rw [hs]
    simp
  · intro st hst
    obtain ⟨st0, -, rfl⟩ := List.mem_map.mp hst
    rfl

/-- Claim C7, amended, witness: assigning `"AUGC"` over `dCached` clears the
cached value; assigning the empty string leaves the design's states as they
are. -/
theorem sequence_setter_reset_amended_witness :
    (designSetSequence dCached "AUGC"
        = .ok { dCached with _sequence := some "AUGC",
                             states := dCached.states.map DState.reset } ∧
      ∀ st ∈ dCached.states.map DState.reset, st.cache = none) ∧
    designSetSequence dCached "" = .ok { dCached with _sequence := none } :=
  sequence_setter_reset_amended dCached "AUGC" (by decide)

/-- Claim C8: the stall-handling block runs exactly when the failure counter
exceeds 10000; it then resets the counter to zero, increments `sample_steps`
by exactly 1 and grows the sampler's undo history to `sample_steps + 100`
(with the incremented `sample_steps`); in every other inner-loop iteration
`sample_steps` and the history size are unchanged, while the counter is
incremented by the unconditional `cg_count += 1` of line 209. -/
theorem stall_threshold_step (p : Params) (st : OptState) :
    (10000 < st.cg_count →
      cgStallStep st = { st with
                          cg_count := 0
                          sample_steps := st.sample_steps + 1
                          history_size := some (st.sample_steps + 1 + 100) }) ∧
    (¬ 10000 < st.cg_count → cgStallStep st = st) ∧
    cgCountTick st = { cgStallStep st with cg_count := (cgStallStep st).cg_count + 1 } ∧
    (∀ st1 prev b, innerBody p st = .ok (st1, prev, b) →
      st1.sample_steps
        = (if 10000 < st.cg_count then st.sample_steps + 1 else st.sample_steps) ∧
      st1.cg_count = (if 10000 < st.cg_count then 0 else st.cg_count) + 1 ∧
      st1.history_size
        = (if 10000 < st.cg_count then some (st.sample_steps + 1 + 100)
           else st.history_size)) := by
  refine ⟨?_, ?_, rfl, ?_⟩
  · intro h
    unfold cgStallStep
    rw [if_pos h]
  · intro h
    unfold cgStallStep
    rw [if_neg h]
  · intro st1 prev b h
    obtain ⟨-, -, -, -, -, -, f7, f8, f9, -, -⟩ := innerBody_fields p st st1 prev b h
    exact ⟨f7, f8, f9⟩

/-- Claim C8, witness: at counter value 10001 the stall step fires. -/
theorem stall_threshold_step_witness :
    cgStallStep stTick = { stTick with
                            cg_count := 0
                            sample_steps := stTick.sample_steps + 1
                            history_size := some (stTick.sample_steps + 1 + 100) } ∧
    cgCountTick stTick
      = { cgStallStep stTick with cg_count := (cgStallStep stTick).cg_count + 1 } :=
  ⟨(stall_threshold_step pTriv stTick).1 (by decide),
   (stall_threshold_step pTriv stTick).2.2.1⟩

/-- Claim C9: every terminating run returns final scores that are
component-wise no greater than the scores computed on the very first sequence
at the start of the run, and the outer loop exits exactly once the
non-improvement counter exceeds the `exit` parameter after a body. -/
theorem final_scores_no_worse_and_exit (p : Params) (designSeq : Option String)
    (ifuel ofuel : ℕ) (res : RunResult)
    (h : constraint_generation_optimization_eval p designSeq ifuel ofuel
      = some (.ok res)) :
    ScoresLE res.scores (initState p designSeq).scores ∧
    (∀ (n : ℕ) (st st1 : OptState) (prev : String),
      innerLoop p ifuel st = some (.ok (st1, prev)) →
      outerLoop p ifuel (n + 1) st =
        if p.exitAfter < (outerAfterInner p st1 prev).count
        then some (.ok (mkResult (outerAfterInner p st1 prev)))
        else outerLoop p ifuel n (outerAfterInner p st1 prev)) := by
  constructor
  · refine outerLoop_scores p ifuel (initState p designSeq).scores ofuel
      (initState p designSeq) res (scoresLE_refl _) ?_ h
    cases designSeq <;> simp [initState]
  · exact fun n st st1 prev hil => outerLoop_step p ifuel n st st1 prev hil

/-- Claim C9, witness: a concrete terminating two-iteration run under `pTriv`
returns scores no worse than the initial ones. -/
theorem final_scores_no_worse_and_exit_witness :
    ScoresLE resTriv.scores (initState pTriv (some "AUGC")).scores :=
  (final_scores_no_worse_and_exit pTriv (some "AUGC") 2 2 resTriv (by rfl)).1

/-- Claim C10: in every terminating run the second returned value
(`number_of_samples`) equals the sixth (`number_samples`): both counters start
at zero, are incremented together on every inner-loop iteration, and are never
reset. -/
theorem sample_counters_agree (p : Params) (designSeq : Option String)
    (ifuel ofuel : ℕ) (res : RunResult)
    (h : constraint_generation_optimization_eval p designSeq ifuel ofuel
      = some (.ok res)) :
    res.number_of_samples = res.number_samples :=
  outerLoop_samples p ifuel ofuel (initState p designSeq) res rfl h

/-- Claim C10, witness: the two counters agree on the concrete run of `pTriv`. -/
theorem sample_counters_agree_witness :
    resTriv.number_of_samples = resTriv.number_samples :=
  sample_counters_agree pTriv (some "AUGC") 2 2 resTriv (by rfl)
